import Mathlib

/-!
Verification development for the `mystubs` incremental stub-build tool
(`src/mystubs/update.py`).

The embedding models:
  * byte streams fed to the hash object as `Bytes` (`List Nat`), with the
    digest of a stream modelled as the stream itself (the hashing
    primitive, `blake2b`, is an out-of-scope pluggable collaborator; two
    digests are equal exactly when the hashed streams are equal),
  * strings hashed with `.encode('utf-8')` as their unicode code points
    (`encodeStr`); Python's `sorted` on strings compares code points
    lexicographically (`strLe`),
  * directory trees as the finite structures `Dir` / `FsNode`;
    the order of the `files`/`subs` lists is the filesystem enumeration
    order that `os.walk` reports before the code sorts it,
  * Python exceptions as the `PyErr` error component of `Except`;
    a Python function that may raise is a Lean function into `Except`.
-/

namespace Mystubs

/-- Byte strings (each element is one byte / code point). -/
abbrev Bytes := List Nat

/-- Lexicographic comparison of code-point lists: the order Python's
`sorted` uses on strings. -/
def natListLe : List Nat → List Nat → Bool
  | [], _ => true
  | _ :: _, [] => false
  | x :: xs, y :: ys => if x < y then true else if x = y then natListLe xs ys else false

theorem natListLe_cons {a b : Nat} {xs ys : List Nat} :
    natListLe (a :: xs) (b :: ys) = true ↔ a < b ∨ (a = b ∧ natListLe xs ys = true) := by
  simp only [natListLe]
  split_ifs with h₁ h₂ <;> simp_all

theorem natListLe_total (x y : List Nat) : natListLe x y = true ∨ natListLe y x = true := by
  induction x generalizing y with
  | nil => left; rfl
  | cons a xs ih =>
    cases y with
    | nil => right; rfl
    | cons b ys =>
      rcases Nat.lt_trichotomy a b with h | h | h
      · left; simp [natListLe, h]
      · subst h; rcases ih ys with h' | h' <;> [left; right] <;> simp [natListLe, h']
      · right; simp [natListLe, h, Nat.lt_asymm h, Nat.ne_of_gt h]

theorem natListLe_trans {x y z : List Nat} (h₁ : natListLe x y = true)
    (h₂ : natListLe y z = true) : natListLe x z = true := by
  induction x generalizing y z with
  | nil => rfl
  | cons a xs ih =>
    cases y with
    | nil => exact absurd h₁ (by simp [natListLe])
    | cons b ys =>
      cases z with
      | nil => exact absurd h₂ (by simp [natListLe])
      | cons c zs =>
        rw [natListLe_cons] at h₁ h₂ ⊢
        rcases h₁ with h₁ | ⟨rfl, h₁⟩
        · rcases h₂ with h₂ | ⟨rfl, h₂⟩
          · exact Or.inl (Nat.lt_trans h₁ h₂)
          · exact Or.inl h₁
        · rcases h₂ with h₂ | ⟨rfl, h₂⟩
          · exact Or.inl h₂
          · exact Or.inr ⟨rfl, ih h₁ h₂⟩

theorem natListLe_antisymm {x y : List Nat} (h₁ : natListLe x y = true)
    (h₂ : natListLe y x = true) : x = y := by
  induction x generalizing y with
  | nil =>
    cases y with
    | nil => rfl
    | cons b ys => exact absurd h₂ (by simp [natListLe])
  | cons a xs ih =>
    cases y with
    | nil => exact absurd h₁ (by simp [natListLe])
    | cons b ys =>
      rw [natListLe_cons] at h₁ h₂
      rcases h₁ with h₁ | ⟨rfl, h₁⟩
      · rcases h₂ with h₂ | ⟨rfl, h₂⟩
        · exact absurd h₂ (Nat.lt_asymm h₁)
        · exact absurd h₁ (Nat.lt_irrefl _)
      · rcases h₂ with h₂ | ⟨-, h₂⟩
        · exact absurd h₂ (Nat.lt_irrefl _)
        · rw [ih h₁ h₂]

/-- The byte encoding of a string used by `.encode('utf-8')` in the hash
input stream, modelled at the level of unicode code points. -/
def encodeStr (s : String) : Bytes := s.data.map Char.toNat

/-- String comparison as used by Python's `sorted` (code-point
lexicographic). -/
def strLe (a b : String) : Bool := natListLe (encodeStr a) (encodeStr b)

theorem charToNat_inj : Function.Injective Char.toNat := by
  intro a b h
  have := congrArg Char.ofNat h
  rwa [Char.ofNat_toNat, Char.ofNat_toNat] at this

theorem encodeStr_inj {a b : String} (h : encodeStr a = encodeStr b) : a = b :=
  String.ext (List.map_injective_iff.mpr charToNat_inj h)

theorem strLe_antisymm {a b : String} (h₁ : strLe a b = true) (h₂ : strLe b a = true) : a = b :=
  encodeStr_inj (natListLe_antisymm h₁ h₂)

/-- Ordering of named entries by name, the sort key of `sorted(dirs)` and
`sorted(files)` in `hash_dir`. -/
def keyLe {α : Type} (a b : String × α) : Prop := strLe a.1 b.1 = true

instance {α : Type} : DecidableRel (keyLe (α := α)) :=
  fun _ _ => inferInstanceAs (Decidable (_ = true))

instance {α : Type} : IsTotal (String × α) keyLe := ⟨fun _ _ => natListLe_total _ _⟩

instance {α : Type} : IsTrans (String × α) keyLe := ⟨fun _ _ _ h₁ h₂ => natListLe_trans h₁ h₂⟩

/-- Python's `sorted` on a list of named entries (stable sort by name). -/
def sortPairs {α : Type} (l : List (String × α)) : List (String × α) :=
  List.insertionSort keyLe l

theorem perm_sizeOf {α} [SizeOf α] {l₁ l₂ : List α} (h : l₁.Perm l₂) :
    sizeOf l₁ = sizeOf l₂ := by
  induction h with
  | nil => rfl
  | cons a _ ih => simp only [List.cons.sizeOf_spec]; omega
  | swap a b l => simp only [List.cons.sizeOf_spec]; omega
  | trans _ _ ih₁ ih₂ => omega

theorem sizeOf_sortPairs {α : Type} [SizeOf α] (l : List (String × α)) :
    sizeOf (sortPairs l) = sizeOf l :=
  perm_sizeOf (List.perm_insertionSort _ l)

theorem sortPairs_perm {α : Type} (l : List (String × α)) : (sortPairs l).Perm l :=
  List.perm_insertionSort _ l

theorem mem_sortPairs {α : Type} {p : String × α} {l : List (String × α)} :
    p ∈ sortPairs l ↔ p ∈ l :=
  (sortPairs_perm l).mem_iff

/-- Two lists of directory entries with the same contents (as a finite
map with distinct names) sort identically, whatever order the filesystem
enumerated them in. -/
theorem sortPairs_eq_of_perm {α : Type} {l₁ l₂ : List (String × α)}
    (hp : l₁.Perm l₂) (hnd : (l₁.map Prod.fst).Nodup) : sortPairs l₁ = sortPairs l₂ := by
  have hs₁ := List.sorted_insertionSort keyLe l₁
  have hs₂ := List.sorted_insertionSort keyLe l₂
  have hp₁ : (sortPairs l₁).Perm (sortPairs l₂) :=
    (List.perm_insertionSort _ l₁).trans (hp.trans (List.perm_insertionSort _ l₂).symm)
  have hnd₁ : ((sortPairs l₁).map Prod.fst).Nodup := by
    have p : l₁.Perm (sortPairs l₁) := (List.perm_insertionSort _ l₁).symm
    exact ((p.map Prod.fst).nodup_iff).mp hnd
  have hnd₂ : ((sortPairs l₂).map Prod.fst).Nodup := by
    have p : l₁.Perm (sortPairs l₂) := hp.trans (List.perm_insertionSort _ l₂).symm
    exact ((p.map Prod.fst).nodup_iff).mp hnd
  have key : ∀ (l : List (String × α)), List.Sorted keyLe l → (l.map Prod.fst).Nodup →
      List.Sorted (fun a b : String × α => keyLe a b ∧ a.1 ≠ b.1) l := by
    intro l hs hn
    exact hs.and (List.pairwise_map.mp hn)
  haveI : IsAntisymm (String × α) (fun a b => keyLe a b ∧ a.1 ≠ b.1) :=
    ⟨fun _ _ h₁ h₂ => absurd (strLe_antisymm h₁.1 h₂.1) h₁.2⟩
  exact List.eq_of_perm_of_sorted hp₁ (key _ hs₁ hnd₁) (key _ hs₂ hnd₂)

/-- Python's `os.path.join` for the relative paths this program builds. -/
def pjoin (a b : String) : String := a ++ "/" ++ b

/-- A directory tree as `os.walk` presents it: at each level the plain
files (name and content bytes) and the subdirectories, each list in the
filesystem's enumeration order. -/
inductive Dir where
| mk (files : List (String × Bytes)) (subs : List (String × Dir))

/-- Files of a directory level. -/
def Dir.files : Dir → List (String × Bytes)
  | .mk f _ => f

/-- Subdirectories of a directory level. -/
def Dir.subs : Dir → List (String × Dir)
  | .mk _ s => s

/-- An entry in the filesystem: a plain file or a directory tree. -/
inductive FsNode where
| file (content : Bytes)
| dir (d : Dir)

/-- Python exceptions that the modelled code can raise or catch. -/
inductive PyErr where
| fileNotFound
| tomlDecodeError
| keyError
| valueError
| attributeError
| calledProcessError
| osError
deriving DecidableEq, Repr

/-- The bytes `hash_file` feeds to the hasher: the path string, then the
file's content bytes. -/
def hashFileStream (p : String) (c : Bytes) : Bytes := encodeStr p ++ c

mutual
/-- The hash-input stream and visited-entry count produced by the
`os.walk` loop of `hash_dir` over the tree at `root`: the root path,
then every contained file (sorted by name) via `hash_file`, then each
subdirectory (sorted by name) recursively; the count increments once per
visited directory and once per file. -/
def walkDir (root : String) (d : Dir) : Bytes × Nat :=
  match d with
  | .mk files subs =>
    let fs := sortPairs files
    let fileStream := (fs.map (fun p => hashFileStream (pjoin root p.1) p.2)).flatten
    walkSubs root (sortPairs subs) (encodeStr root ++ fileStream, 1 + fs.length)
termination_by sizeOf d
decreasing_by
  simp only [Dir.mk.sizeOf_spec, sizeOf_sortPairs]
  omega

/-- Continuation of the walk over the (already sorted) subdirectory list,
accumulating stream and count. -/
def walkSubs (root : String) (l : List (String × Dir)) (acc : Bytes × Nat) : Bytes × Nat :=
  match l with
  | [] => acc
  | (n, d) :: rest =>
    let r := walkDir (pjoin root n) d
    walkSubs root rest (acc.1 ++ r.1, acc.2 + r.2)
termination_by sizeOf l
decreasing_by
  · simp only [List.cons.sizeOf_spec, Prod.mk.sizeOf_spec]; omega
  · simp only [List.cons.sizeOf_spec]; omega
end

/-- `hash_dir(hasher, dir)`: `dirPath` is the `dir` argument (`none`
models passing `None`); `tree` is what the filesystem holds at that path
(`none` models a path that does not exist). Returns the full byte stream
fed to the hasher, or the `ValueError` that `bytes([item_count])` raises
when the count exceeds one byte. -/
def hashDir (dirPath : Option String) (tree : Option Dir) : Except PyErr Bytes :=
  let flag : Bytes := [if dirPath.isSome ∧ tree.isSome then 1 else 0]
  match dirPath with
  | none => .ok flag
  | some p =>
    match tree with
    | none => .ok (flag ++ [0])
    | some d =>
      let r := walkDir p d
      if r.2 ≤ 255 then .ok (flag ++ r.1 ++ [r.2]) else .error .valueError

/-- First-match lookup in a list of named entries (the semantics of name
lookup in a directory listing or a Python dict built with unique keys). -/
def lookupD {α : Type} : List (String × α) → String → Option α
  | [], _ => none
  | (k, v) :: rest, n => if k = n then some v else lookupD rest n

/-- One value of the `modules` table of `.mystubs.toml`: either a bare
version string or a table with optional `package_name`, `version` and
`skip` keys. -/
inductive ModDetails where
| str (version : String)
| table (package_name : Option String) (version : Option String) (skip : Bool)
deriving DecidableEq

/-- The per-module config dict carried by a `Mod` (after
`gather_modules_to_build` normalises a bare string to `{'version': v}`). -/
structure ModConfig where
  package_name : Option String
  version : Option String
  skip : Bool
deriving DecidableEq

/-- The global `config` mapping plus the parsed external version source.
`autoVersions` is the mapping `auto_versions()` produces from the
requirements files (requirement parsing is an external interface; the
mapping has the unique keys of a Python dict). -/
structure Config where
  local_stubs_directory : String
  discover_modules : Bool
  modules : List (String × ModDetails)
  autoVersions : List (String × String)

/-- A build target, as constructed by `gather_modules_to_build`. -/
structure Mod where
  name : String
  config : ModConfig
  stub_root_dir : String

/-- `auto_version(package_name)`: lookup in the memoised requirements
mapping. -/
def autoVersion (cfg : Config) (name : String) : Option String :=
  lookupD cfg.autoVersions name

/-- `Mod.target_version`: the configured version, with the default and
the sentinel `'auto'` resolved from the external version source (which
may lack the name, giving `None`). -/
def targetVersion (cfg : Config) (m : Mod) : Option String :=
  match m.config.version with
  | none => autoVersion cfg m.name
  | some v => if v = "auto" then autoVersion cfg m.name else some v

/-- `Mod.package_name`: defaults to the module name. -/
def packageName (m : Mod) : String := m.config.package_name.getD m.name

/-- Normalisation applied to each `modules` entry by
`gather_modules_to_build`: a bare string has no `skip` flag
(`AttributeError` branch) and becomes `{'version': v}`. Returns the skip
flag and the `Mod` config dict. -/
def normalizeDetails : ModDetails → Bool × ModConfig
  | .str v => (false, ⟨none, some v, false⟩)
  | .table pn v sk => (sk, ⟨pn, v, sk⟩)

/-- The explicit half of `gather_modules_to_build()`: a `Mod` for each
configured entry whose (normalised) `skip` flag is not set, in
configuration order. -/
def explicitMods (localDir : String) (mods : List (String × ModDetails)) : List Mod :=
  mods.filterMap (fun p =>
    let sk := normalizeDetails p.2
    if sk.1 then none else some ⟨p.1, sk.2, pjoin localDir p.1⟩)

/-- The auto-discovery half of `gather_modules_to_build()`: a `Mod` for
each name of the external version source that is not among the
configured names (skipped entries count as configured). -/
def autoMods (localDir : String) (configured : List String)
    (avs : List (String × String)) : List Mod :=
  avs.filterMap (fun p =>
    if p.1 ∈ configured then none
    else some ⟨p.1, ⟨none, some p.2, false⟩, pjoin localDir p.1⟩)

/-- `gather_modules_to_build()`: the explicitly configured, non-skipped
entries; then, when `discover_modules` is set, the auto-discovered
ones. -/
def gatherModules (cfg : Config) : List Mod :=
  let localDir := pjoin cfg.local_stubs_directory ".local"
  explicitMods localDir cfg.modules ++
    (if cfg.discover_modules then
      autoMods localDir (cfg.modules.map Prod.fst) cfg.autoVersions
    else [])

/-- The three fields `is_built_version` reads from a parsed build-record
document; a `none` field is a key the document lacks (so indexing it
raises `KeyError`). The stored `hash` hex string is modelled by the byte
stream whose digest it is. -/
structure RecordFields where
  version : Option String
  hash : Option Bytes
  hash_algo : Option String
deriving DecidableEq

/-- The state of the persisted build-record file at
`mod.prev_build_record_path`: absent (`toml.load` raises
`FileNotFoundError`), present but not parseable (`toml.load` raises
`TomlDecodeError`), or parsed into its fields. -/
inductive RecordState where
| absent
| corrupt
| record (r : RecordFields)
deriving DecidableEq

/-- The allow-list `_allowed_hashes` (keys only; the algorithm itself is
the out-of-scope hashing primitive). -/
def allowedHashes : List String := ["blake2b"]

/-- The parts of the filesystem one module's staleness check reads or
that the run writes for it: its build record, the tree at its
project-local override directory, the trees at its user-scope override
directories (in the order `user_local_stubs_override_dirs` lists them),
and the entries of the shared stubs output directory by name. -/
structure ModFs where
  record : RecordState
  projectOverride : Option Dir
  userOverrides : List (Option Dir)
  stubsEntries : String → Option FsNode

/-- `mod.project_local_stubs_overrides`. -/
def projectOverridesPath (cfg : Config) (m : Mod) : String :=
  pjoin (pjoin cfg.local_stubs_directory ".local") m.name

/-- One iteration of the artifact loop of `hash_current_state`: hash the
entry `artifact` of the stubs directory as a directory if it is one, as
a file if it is one, else contribute nothing. -/
def hashArtifact (cfg : Config) (fs : ModFs) (artifact : String) : Except PyErr Bytes :=
  match fs.stubsEntries artifact with
  | some (.dir d) => hashDir (some (pjoin cfg.local_stubs_directory artifact)) (some d)
  | some (.file c) => .ok (hashFileStream (pjoin cfg.local_stubs_directory artifact) c)
  | none => .ok []

/-- `Mod.hash_current_state`: the full stream fed to the hasher — the
mypy version string, the resolved target version (raising
`AttributeError` when it is `None`), the project-local override tree,
then the artifacts `{package_name}.pyi` and `{package_name}` of the
stubs directory. -/
def hashCurrentState (cfg : Config) (mypyVer : String) (m : Mod) (fs : ModFs) :
    Except PyErr Bytes :=
  match targetVersion cfg m with
  | none => .error .attributeError
  | some tv => do
    let s₁ ← hashDir (some (projectOverridesPath cfg m)) fs.projectOverride
    let s₂ ← hashArtifact cfg fs (packageName m ++ ".pyi")
    let s₃ ← hashArtifact cfg fs (packageName m)
    .ok (encodeStr mypyVer ++ encodeStr tv ++ s₁ ++ s₂ ++ s₃)

/-- `is_built_version(mod, target)`. Only `FileNotFoundError` from
`toml.load` and the `KeyError` of the algorithm lookup are caught; a
corrupt record or a missing `version`/`hash`/`hash_algo` key raises.
Digest comparison is comparison of the hashed streams. -/
def isBuiltVersion (cfg : Config) (mypyVer : String) (m : Mod) (fs : ModFs)
    (target : Option String) : Except PyErr Bool :=
  match target with
  | none => .ok false
  | some t =>
    match fs.record with
    | .absent => .ok false
    | .corrupt => .error .tomlDecodeError
    | .record r =>
      match r.version with
      | none => .error .keyError
      | some bv =>
        if bv ≠ t then .ok false
        else
          match r.hash with
          | none => .error .keyError
          | some alleged =>
            match r.hash_algo with
            | none => .error .keyError
            | some algo =>
              if algo ∈ allowedHashes then
                match hashCurrentState cfg mypyVer m fs with
                | .error e => .error e
                | .ok s => .ok (alleged == s)
              else .ok false

/-- The shared stubs output directory (`config['local_stubs_directory']`)
by top-level entry name. -/
abbrev StubsMap := String → Option FsNode

/-- Resolve one name inside a directory level (files shadow
subdirectories; a real directory never holds both). -/
def entryAt (d : Dir) (n : String) : Option FsNode :=
  match lookupD d.files n with
  | some c => some (.file c)
  | none => (lookupD d.subs n).map FsNode.dir

/-- Resolve a relative path below a node to a file's bytes. -/
def lookupNode : FsNode → List String → Option Bytes
  | .file c, [] => some c
  | .file _, _ :: _ => none
  | .dir _, [] => none
  | .dir d, n :: rest =>
    match entryAt d n with
    | some node => lookupNode node rest
    | none => none

/-- Resolve a relative path below the stubs output directory. -/
def lookupStubs (st : StubsMap) : List String → Option Bytes
  | [] => none
  | n :: rest =>
    match st n with
    | some node => lookupNode node rest
    | none => none

mutual
/-- The effect on an existing destination directory of walking a source
tree and copying every file over it (`shutil.copy2` per file): source
files overwrite, source subdirectories merge recursively, everything
else is kept. -/
def mergeDir (dest src : Dir) : Dir :=
  match dest, src with
  | .mk dfiles dsubs, .mk sfiles ssubs =>
    .mk (sfiles ++ dfiles) (mergeSubs dsubs ssubs ++ dsubs)
termination_by sizeOf src
decreasing_by
  simp only [Dir.mk.sizeOf_spec]; omega

/-- Merge each source subdirectory with the like-named destination
subdirectory, if any. -/
def mergeSubs (dsubs : List (String × Dir)) (ssubs : List (String × Dir)) :
    List (String × Dir) :=
  match ssubs with
  | [] => []
  | (n, sd) :: rest =>
    (n, match lookupD dsubs n with
        | some dd => mergeDir dd sd
        | none => sd) :: mergeSubs dsubs rest
termination_by sizeOf ssubs
decreasing_by
  · simp only [List.cons.sizeOf_spec, Prod.mk.sizeOf_spec]; omega
  · simp only [List.cons.sizeOf_spec]; omega
end

/-- The effect of `copy_stubs_into_place(from_dir)` on the stubs output
directory: each file of the source tree lands at its relative path,
overwriting what was there. -/
def mergeTop (st : StubsMap) (src : Dir) : StubsMap :=
  fun n =>
    match lookupD src.files n with
    | some c => some (.file c)
    | none =>
      match lookupD src.subs n with
      | some sd =>
        match st n with
        | some (.dir dd) => some (.dir (mergeDir dd sd))
        | some (.file c) => some (.file c)
        | none => some (.dir sd)
      | none => st n

/-- `copy_stubs_into_place(from_dir)`: a `None` or non-existent source
directory is skipped without touching the filesystem (`src = none`);
otherwise the walk copies the tree, unless the environment makes one of
the filesystem operations fail (`fault`), in which case the error
propagates. -/
def copyStubsIntoPlace (fault : Option PyErr) (src : Option Dir) (st : StubsMap) :
    Except PyErr StubsMap :=
  match src with
  | none => .ok st
  | some d =>
    match fault with
    | some e => .error e
    | none => .ok (mergeTop st d)

/-- Identifies one `copy_stubs_into_place` call of a module's build: the
primary copy of the generated tree, the i-th user-scope override, or
the project-local override. -/
inductive CopyPhase where
| primary
| user (i : Nat)
| project
deriving DecidableEq

/-- The external collaborators of a run, fixed for its duration: the
mypy version, the override trees each module's override paths hold, the
outcome of the stubgen invocations for a package (`check_call` raises
`CalledProcessError` on a non-zero exit; on success the generated tree),
and any filesystem fault injected into a copy operation. -/
structure Env where
  mypyVersion : String
  projectOverride : String → Option Dir
  userOverrides : String → List (Option Dir)
  stubgen : String → Except PyErr Dir
  copyFault : String → CopyPhase → Option PyErr

/-- The mutable filesystem state a run threads: each module's build
record (at its `prev_build_record_path`) and the shared stubs output
directory. -/
structure OrchState where
  records : String → RecordState
  stubs : StubsMap

/-- The `ModFs` view of the orchestrator state that the fingerprint layer
of module `m` reads. -/
def modFsView (env : Env) (m : Mod) (st : OrchState) : ModFs :=
  { record := st.records m.name
  , projectOverride := env.projectOverride m.name
  , userOverrides := env.userOverrides m.name
  , stubsEntries := st.stubs }

/-- `generate_stubs(mod, ...)`: run stubgen for the package's units into
a temporary directory, then copy the generated `out` tree into the stubs
directory. A failing invocation raises before anything is copied. -/
def generateStubs (env : Env) (m : Mod) (st : OrchState) : Except PyErr OrchState :=
  match env.stubgen (packageName m) with
  | .error e => .error e
  | .ok tree =>
    match copyStubsIntoPlace (env.copyFault m.name .primary) (some tree) st.stubs with
    | .error e => .error e
    | .ok stubs' => .ok { st with stubs := stubs' }

/-- The override-layering loop of `update_if_required`: copy each source
in turn; an error propagates carrying the state mutated so far. -/
def layerList : List (Option PyErr × Option Dir) → OrchState →
    Except (PyErr × OrchState) OrchState
  | [], st => .ok st
  | (fault, src) :: rest, st =>
    match copyStubsIntoPlace fault src st.stubs with
    | .error e => .error (e, st)
    | .ok stubs' => layerList rest { st with stubs := stubs' }

/-- The override sources of module `m` in the order the loop of
`update_if_required` visits them (`itertools.chain` of the user-scope
directories and the project-local directory), each paired with the
fault, if any, its copy would hit. -/
def overrideSources (env : Env) (m : Mod) : List (Option PyErr × Option Dir) :=
  ((env.userOverrides m.name).enum.map
    (fun p => (env.copyFault m.name (.user p.1), p.2)))
  ++ [(env.copyFault m.name .project, env.projectOverride m.name)]

/-- `record_build_state(mod)`: recompute the fingerprint over the
current (post-layering) state — any error there propagates before the
file is opened — then write the record document with the resolved
version, the digest and `'blake2b'`. -/
def recordBuildState (cfg : Config) (env : Env) (m : Mod) (st : OrchState) :
    Except PyErr OrchState :=
  match hashCurrentState cfg env.mypyVersion m (modFsView env m st) with
  | .error e => .error e
  | .ok s =>
    .ok { st with records := fun n =>
            if n = m.name then .record ⟨targetVersion cfg m, some s, some "blake2b"⟩
            else st.records n }

/-- `update_if_required(mod)`: if the staleness check reports fresh, do
nothing; otherwise generate, layer the overrides, and record the build
state. Errors propagate to the caller together with the state mutated up
to that point. -/
def updateIfRequired (cfg : Config) (env : Env) (m : Mod) (st : OrchState) :
    Except (PyErr × OrchState) OrchState :=
  match isBuiltVersion cfg env.mypyVersion m (modFsView env m st) (targetVersion cfg m) with
  | .error e => .error (e, st)
  | .ok true => .ok st
  | .ok false =>
    match generateStubs env m st with
    | .error e => .error (e, st)
    | .ok st₁ =>
      match layerList (overrideSources env m) st₁ with
      | .error e => .error e
      | .ok st₂ =>
        match recordBuildState cfg env m st₂ with
        | .error e => .error (e, st₂)
        | .ok st₃ => .ok st₃

/-- The loop of `run()` over the resolved modules: no exception handling,
so the first failing module aborts the rest of the loop. -/
def runMods (cfg : Config) (env : Env) : List Mod → OrchState →
    Except (PyErr × OrchState) OrchState
  | [], st => .ok st
  | m :: rest, st =>
    match updateIfRequired cfg env m st with
    | .error e => .error e
    | .ok st' => runMods cfg env rest st'

/-- `run()` without `--clean`: resolve the modules and update each. -/
def runAll (cfg : Config) (env : Env) (st : OrchState) :
    Except (PyErr × OrchState) OrchState :=
  runMods cfg env (gatherModules cfg) st

instance {ε α : Type} [DecidableEq ε] [DecidableEq α] : DecidableEq (Except ε α) := fun x y =>
  match x, y with
  | .ok a, .ok b =>
    if h : a = b then .isTrue (by rw [h]) else .isFalse (fun hh => by cases hh; exact h rfl)
  | .error a, .error b =>
    if h : a = b then .isTrue (by rw [h]) else .isFalse (fun hh => by cases hh; exact h rfl)
  | .ok _, .error _ => .isFalse (fun hh => by cases hh)
  | .error _, .ok _ => .isFalse (fun hh => by cases hh)

/-- A minimal configuration used in concrete instances. -/
def cfg0 : Config := ⟨".mystubs", false, [], []⟩

/-- A module with a literal configured version, used in concrete
instances. -/
def mod0 : Mod := ⟨"foo", ⟨none, some "1.0", false⟩, ".mystubs/.local/foo"⟩

/-- An empty stubs output directory. -/
def emptyStubs : StubsMap := fun _ => none

/-- C10: `hash_current_state` reads the mypy version, the resolved target
version, the project-local override tree and the stubs-directory
artifacts — never the user-scope override directories — so any two
filesystem states that differ only in the user-scope override trees give
the same digest, and the staleness verdict is likewise unchanged. -/
theorem c10_user_overrides_not_read (cfg : Config) (mypyVer : String) (m : Mod)
    (rec : RecordState) (proj : Option Dir) (u₁ u₂ : List (Option Dir))
    (arts : String → Option FsNode) (target : Option String) :
    hashCurrentState cfg mypyVer m ⟨rec, proj, u₁, arts⟩ =
      hashCurrentState cfg mypyVer m ⟨rec, proj, u₂, arts⟩ ∧
    isBuiltVersion cfg mypyVer m ⟨rec, proj, u₁, arts⟩ target =
      isBuiltVersion cfg mypyVer m ⟨rec, proj, u₂, arts⟩ target :=
  ⟨rfl, rfl⟩

/-- C1 counterexample: a build-record file that exists and parses but has
no `version` key. The claim says any failed condition yields STALE; the
code instead raises `KeyError` from `build_record['version']`. -/
theorem c1_counterexample :
    isBuiltVersion cfg0 "0.1" mod0 ⟨.record ⟨none, none, none⟩, none, [], emptyStubs⟩
        (some "1.0") = .error .keyError ∧
    (Except.error .keyError : Except PyErr Bool) ≠ .ok false ∧
    (Except.error .keyError : Except PyErr Bool) ≠ .ok true :=
  ⟨rfl, by decide, by decide⟩

/-- C1 (amended): `is_built_version` reports FRESH exactly when the
target version resolves, a record file exists and parses with a
`version` field equal to the target, its `hash_algo` is in the
allow-list, recomputing the fingerprint succeeds, and the recomputed
digest equals the stored `hash`; failed conditions otherwise yield STALE
only for an absent record, a version mismatch or an unrecognized
algorithm, while a corrupt or incomplete record raises. -/
theorem c1_fresh_iff (cfg : Config) (mypyVer : String) (m : Mod) (fs : ModFs)
    (target : Option String) :
    isBuiltVersion cfg mypyVer m fs target = .ok true ↔
      ∃ t r a s, target = some t ∧ fs.record = .record r ∧ r.version = some t ∧
        r.hash_algo = some a ∧ a ∈ allowedHashes ∧
        hashCurrentState cfg mypyVer m fs = .ok s ∧ r.hash = some s := by
  obtain ⟨rec, proj, user, arts⟩ := fs
  cases target with
  | none => simp [isBuiltVersion]
  | some t =>
    cases rec with
    | absent => simp [isBuiltVersion]
    | corrupt => simp [isBuiltVersion]
    | record r =>
      obtain ⟨rv, rh, ra⟩ := r
      cases rv with
      | none => simp [isBuiltVersion]
      | some bv =>
        simp only [isBuiltVersion]
        by_cases hbv : bv = t
        · subst hbv
          rw [if_neg (show ¬bv ≠ bv by simp)]
          cases rh with
          | none => simp
          | some alleged =>
            cases ra with
            | none => simp
            | some algo =>
              by_cases hmem : algo ∈ allowedHashes
              · cases hcs : hashCurrentState cfg mypyVer m
                    ⟨RecordState.record ⟨some bv, some alleged, some algo⟩, proj, user, arts⟩ with
                | error e => simp [hcs, hmem]
                | ok s => simp [hcs, hmem, beq_iff_eq]
              · simp [hmem]
        · rw [if_pos hbv]
          simp [hbv]

/-- C2 counterexample: a build-record file whose contents do not parse.
The claim says the check never raises and yields STALE; the code lets
`toml.TomlDecodeError` propagate. -/
theorem c2_counterexample :
    isBuiltVersion cfg0 "0.1" mod0 ⟨.corrupt, none, [], emptyStubs⟩ (some "1.0") =
      .error .tomlDecodeError ∧
    (Except.error .tomlDecodeError : Except PyErr Bool) ≠ .ok false :=
  ⟨rfl, by decide⟩

/-- C2 (amended): an absent record file and a well-formed record with an
unrecognized `hash_algo` never raise and yield STALE; but a record that
does not parse raises `TomlDecodeError`, and a record missing its
`version` key raises `KeyError`, both propagated to the caller. -/
theorem c2_fail_closed (cfg : Config) (mypyVer : String) (m : Mod) (proj : Option Dir)
    (user : List (Option Dir)) (arts : String → Option FsNode) (t : String)
    (hv : Option Bytes) (ha : Option String) (hb : Bytes) :
    isBuiltVersion cfg mypyVer m ⟨.absent, proj, user, arts⟩ (some t) = .ok false ∧
    isBuiltVersion cfg mypyVer m ⟨.corrupt, proj, user, arts⟩ (some t) =
      .error .tomlDecodeError ∧
    isBuiltVersion cfg mypyVer m ⟨.record ⟨none, hv, ha⟩, proj, user, arts⟩ (some t) =
      .error .keyError ∧
    isBuiltVersion cfg mypyVer m ⟨.record ⟨some t, none, ha⟩, proj, user, arts⟩ (some t) =
      .error .keyError ∧
    isBuiltVersion cfg mypyVer m ⟨.record ⟨some t, some hb, none⟩, proj, user, arts⟩
      (some t) = .error .keyError ∧
    (∀ (a : String) (h : Bytes), a ∉ allowedHashes →
      isBuiltVersion cfg mypyVer m ⟨.record ⟨some t, some h, some a⟩, proj, user, arts⟩
        (some t) = .ok false) := by
  refine ⟨rfl, rfl, rfl, ?_, ?_, fun a h hmem => ?_⟩
  · unfold isBuiltVersion
    simp
  · unfold isBuiltVersion
    simp
  · unfold isBuiltVersion
    simp [hmem]

/-- C2 witness: the amended behaviour at a concrete unrecognized
algorithm. -/
theorem c2_witness :
    isBuiltVersion cfg0 "0.1" mod0
      ⟨.record ⟨some "1.0", some [], some "md5"⟩, none, [], emptyStubs⟩ (some "1.0") =
      .ok false :=
  (c2_fail_closed cfg0 "0.1" mod0 none [] emptyStubs "1.0" none none []).2.2.2.2.2 "md5" []
    (by decide)

/-- C7 counterexample: at path `"d"`, the stream for a missing directory
is the flag byte followed by a zero count byte — not the single flag
byte the claim describes — and the stream for an empty directory ends in
a count byte of one (the walk counts the root itself), not zero. -/
theorem hashDir_empty (p : String) :
    hashDir (some p) (some (Dir.mk [] [])) = .ok ([1] ++ encodeStr p ++ [1]) := by
  rw [hashDir, walkDir]
  rw [show sortPairs ([] : List (String × Dir)) = [] from rfl]
  rw [walkSubs]
  rw [show sortPairs ([] : List (String × Bytes)) = [] from rfl]
  simp

theorem c7_counterexample :
    hashDir (some "d") none = .ok [0, 0] ∧
    hashDir (some "d") none ≠ .ok [0] ∧
    hashDir (some "d") (some (Dir.mk [] [])) ≠ .ok ([1] ++ encodeStr "d" ++ [0]) := by
  refine ⟨rfl, by decide, ?_⟩
  rw [hashDir_empty]
  decide

/-- C7 (amended): a missing directory (a path that does not exist)
contributes the absent flag byte followed by a zero count byte; an
existing empty directory contributes its presence flag, its path and a
count byte of one, since the walk counts the root directory itself; the
two streams always differ, already at the flag byte. -/
theorem c7_missing_vs_empty (p : String) :
    hashDir (some p) none = .ok [0, 0] ∧
    hashDir (some p) (some (Dir.mk [] [])) = .ok ([1] ++ encodeStr p ++ [1]) ∧
    hashDir (some p) none ≠ hashDir (some p) (some (Dir.mk [] [])) := by
  refine ⟨rfl, hashDir_empty p, ?_⟩
  rw [hashDir_empty, show hashDir (some p) none = .ok [0, 0] from rfl]
  intro h
  cases h

/-- A directory of 256 distinctly named empty files: the walk visits 257
entries (the root plus the files). -/
def bigDir : Dir := Dir.mk ((List.range 256).map (fun i => (toString i, ([] : Bytes)))) []

/-- C8 counterexample: on a tree with 257 visited entries, `hash_dir`
raises `ValueError` from `bytes([item_count])` instead of producing a
digest with a truncated count byte. -/
theorem c8_counterexample : hashDir (some "d") (some bigDir) = .error .valueError := by
  have hcount : (walkDir "d" bigDir).2 = 257 := by
    rw [bigDir, walkDir]
    rw [show sortPairs ([] : List (String × Dir)) = [] from rfl]
    rw [walkSubs]
    simp only [sortPairs, List.length_insertionSort, List.length_map, List.length_range]
  rw [hashDir]
  rw [if_neg (by omega)]

/-- C8 (amended): directory fingerprinting is not total — `hash_dir`
produces a digest exactly when the total visited-entry count fits in one
byte, and raises `ValueError` otherwise (no modular truncation takes
place). -/
theorem c8_digest_iff_count_le (p : String) (d : Dir) :
    (∃ s, hashDir (some p) (some d) = .ok s) ↔ (walkDir p d).2 ≤ 255 := by
  rw [hashDir]
  by_cases h : (walkDir p d).2 ≤ 255
  · simp [h]
  · simp [h]

mutual
/-- The canonical form of a tree: every level's file and subdirectory
lists sorted by name. Two trees denote the same directory contents under
two filesystem enumeration orders exactly when their canonical forms
agree. -/
def canonDir (d : Dir) : Dir :=
  match d with
  | .mk files subs => .mk (sortPairs files) (sortPairs (canonSubs subs))
termination_by sizeOf d
decreasing_by
  simp only [Dir.mk.sizeOf_spec]; omega

/-- Canonicalise each subdirectory. -/
def canonSubs (l : List (String × Dir)) : List (String × Dir) :=
  match l with
  | [] => []
  | (n, d) :: rest => (n, canonDir d) :: canonSubs rest
termination_by sizeOf l
decreasing_by
  · simp only [List.cons.sizeOf_spec, Prod.mk.sizeOf_spec]; omega
  · simp only [List.cons.sizeOf_spec]; omega
end

theorem canonSubs_eq_map (l : List (String × Dir)) :
    canonSubs l = l.map (fun p => (p.1, canonDir p.2)) := by
  induction l with
  | nil => rw [canonSubs]; rfl
  | cons p rest ih =>
    rcases p with ⟨n, d⟩
    rw [canonSubs, ih]
    rfl

/-- A well-formed directory tree: entry names are distinct at every
level (as they are on a real filesystem). -/
inductive WFDir : Dir → Prop
| mk {files : List (String × Bytes)} {subs : List (String × Dir)} :
    (files.map Prod.fst ++ subs.map Prod.fst).Nodup →
    (∀ p ∈ subs, WFDir p.2) →
    WFDir (.mk files subs)

theorem eq_of_perm_sorted_nodup {α : Type} {l₁ l₂ : List (String × α)}
    (hp : l₁.Perm l₂) (hs₁ : List.Sorted keyLe l₁) (hs₂ : List.Sorted keyLe l₂)
    (hnd : (l₁.map Prod.fst).Nodup) : l₁ = l₂ := by
  have hnd₂ : (l₂.map Prod.fst).Nodup := ((hp.map Prod.fst).nodup_iff).mp hnd
  have key : ∀ (l : List (String × α)), List.Sorted keyLe l → (l.map Prod.fst).Nodup →
      List.Sorted (fun a b : String × α => keyLe a b ∧ a.1 ≠ b.1) l := fun l hs hn =>
    hs.and (List.pairwise_map.mp hn)
  haveI : IsAntisymm (String × α) (fun a b => keyLe a b ∧ a.1 ≠ b.1) :=
    ⟨fun _ _ h₁ h₂ => absurd (strLe_antisymm h₁.1 h₂.1) h₁.2⟩
  exact List.eq_of_perm_of_sorted hp (key _ hs₁ hnd) (key _ hs₂ hnd₂)

theorem sortPairs_idem {α : Type} (l : List (String × α)) :
    sortPairs (sortPairs l) = sortPairs l :=
  (List.sorted_insertionSort keyLe l).insertionSort_eq

theorem sorted_map_keyLe {α β : Type} (f : String × α → String × β)
    (hf : ∀ p, (f p).1 = p.1) {l : List (String × α)} (hs : List.Sorted keyLe l) :
    List.Sorted keyLe (l.map f) := by
  rw [List.Sorted, List.pairwise_map]
  exact hs.imp (fun {a b} h => by simpa only [keyLe, hf] using h)

theorem sortPairs_map_comm {α β : Type} (f : String × α → String × β)
    (hf : ∀ p, (f p).1 = p.1) (l : List (String × α))
    (hnd : (l.map Prod.fst).Nodup) :
    sortPairs (l.map f) = (sortPairs l).map f := by
  have hkeys : (l.map f).map Prod.fst = l.map Prod.fst := by
    rw [List.map_map]
    exact List.map_congr_left (fun a _ => hf a)
  apply eq_of_perm_sorted_nodup
  · exact (sortPairs_perm _).trans ((sortPairs_perm l).symm.map f)
  · exact List.sorted_insertionSort _ _
  · exact sorted_map_keyLe f hf (List.sorted_insertionSort _ _)
  · have p : (l.map f).Perm (sortPairs (l.map f)) := (sortPairs_perm _).symm
    exact ((p.map Prod.fst).nodup_iff).mp (hkeys ▸ hnd)

theorem walkSubs_congr (root : String) (l : List (String × Dir)) (acc : Bytes × Nat)
    (h : ∀ p ∈ l, ∀ r', walkDir r' p.2 = walkDir r' (canonDir p.2)) :
    walkSubs root (l.map (fun p => (p.1, canonDir p.2))) acc = walkSubs root l acc := by
  induction l generalizing acc with
  | nil => rfl
  | cons p rest ih =>
    rcases p with ⟨n, d⟩
    rw [List.map_cons]
    rw [walkSubs]
    conv_rhs => rw [walkSubs]
    rw [← h (n, d) (List.mem_cons_self _ _) (pjoin root n)]
    exact ih _ (fun q hq r' => h q (List.mem_cons_of_mem _ hq) r')

theorem walkDir_canon : ∀ (N : Nat) (d : Dir), sizeOf d ≤ N → WFDir d →
    ∀ root, walkDir root d = walkDir root (canonDir d) := by
  intro N
  induction N with
  | zero =>
    intro d hd
    rcases d with ⟨files, subs⟩
    simp only [Dir.mk.sizeOf_spec] at hd
    omega
  | succ N ih =>
    intro d hd hwf root
    rcases d with ⟨files, subs⟩
    rcases hwf with ⟨hnd, hsub⟩
    have hndf : (files.map Prod.fst).Nodup := hnd.of_append_left
    have hnds : (subs.map Prod.fst).Nodup := hnd.of_append_right
    rw [canonDir]
    rw [walkDir]
    conv_rhs => rw [walkDir]
    rw [canonSubs_eq_map, sortPairs_idem files, sortPairs_idem,
      sortPairs_map_comm (fun q => (q.1, canonDir q.2)) (fun _ => rfl) subs hnds]
    refine (walkSubs_congr root (sortPairs subs) _ ?_).symm
    intro p hp r'
    rcases p with ⟨n, d'⟩
    have hm : (n, d') ∈ subs := mem_sortPairs.mp hp
    have hlt := List.sizeOf_lt_of_mem hm
    simp only [Dir.mk.sizeOf_spec] at hd
    simp only [Prod.mk.sizeOf_spec] at hlt
    exact ih d' (by omega) (hsub (n, d') hm) r'

/-- C5: the fingerprint over a directory tree is a pure function of the
tree (so repeated computation with no intervening mutation gives the
same digest), and it is invariant under the filesystem's enumeration
order: trees with the same canonical contents hash identically, because
`hash_dir` sorts both the subdirectory and the file list at every level
of the walk. -/
theorem c5_fingerprint_deterministic (p : String) (t₁ t₂ : Dir)
    (h₁ : WFDir t₁) (h₂ : WFDir t₂) (heq : canonDir t₁ = canonDir t₂) :
    hashDir (some p) (some t₁) = hashDir (some p) (some t₁) ∧
    hashDir (some p) (some t₁) = hashDir (some p) (some t₂) := by
  refine ⟨rfl, ?_⟩
  have hw : walkDir p t₁ = walkDir p t₂ := by
    rw [walkDir_canon (sizeOf t₁) t₁ le_rfl h₁ p, heq,
      ← walkDir_canon (sizeOf t₂) t₂ le_rfl h₂ p]
  simp [hashDir, hw]

/-- C5 witness: two enumeration orders of the same two-file directory
fingerprint identically. -/
theorem c5_witness :
    hashDir (some "r") (some (Dir.mk [("a", [1]), ("b", [2])] [])) =
      hashDir (some "r") (some (Dir.mk [("b", [2]), ("a", [1])] [])) :=
  (c5_fingerprint_deterministic "r" _ _
    (WFDir.mk (by decide) (fun p hp => absurd hp (List.not_mem_nil p)))
    (WFDir.mk (by decide) (fun p hp => absurd hp (List.not_mem_nil p)))
    (by rw [canonDir]; conv_rhs => rw [canonDir]
        rw [canonSubs]
        congr 1)).2

theorem layerList_records (l : List (Option PyErr × Option Dir)) (st : OrchState) :
    (∀ e st', layerList l st = .error (e, st') → st'.records = st.records) ∧
    (∀ st', layerList l st = .ok st' → st'.records = st.records) := by
  induction l generalizing st with
  | nil =>
    constructor
    · intro e st' h
      simp [layerList] at h
    · intro st' h
      simp only [layerList, Except.ok.injEq] at h
      rw [h]
  | cons p rest ih =>
    rcases p with ⟨fault, src⟩
    constructor
    · intro e st' h
      simp only [layerList] at h
      cases hc : copyStubsIntoPlace fault src st.stubs with
      | error e' =>
        rw [hc] at h
        cases h
        rfl
      | ok stubs' =>
        rw [hc] at h
        dsimp only at h
        exact (ih { st with stubs := stubs' }).1 e st' h
    · intro st' h
      simp only [layerList] at h
      cases hc : copyStubsIntoPlace fault src st.stubs with
      | error e' =>
        rw [hc] at h
        cases h
      | ok stubs' =>
        rw [hc] at h
        dsimp only at h
        exact (ih { st with stubs := stubs' }).2 st' h

theorem generateStubs_records (env : Env) (m : Mod) (st st' : OrchState)
    (h : generateStubs env m st = .ok st') : st'.records = st.records := by
  unfold generateStubs at h
  cases hg : env.stubgen (packageName m) with
  | error e => rw [hg] at h; cases h
  | ok tree =>
    rw [hg] at h
    dsimp only at h
    cases hc : copyStubsIntoPlace (env.copyFault m.name .primary) (some tree) st.stubs with
    | error e => rw [hc] at h; cases h
    | ok stubs' =>
      rw [hc] at h
      cases h
      rfl

theorem recordBuildState_ok (cfg : Config) (env : Env) (m : Mod) (st st' : OrchState)
    (h : recordBuildState cfg env m st = .ok st') :
    ∃ s, hashCurrentState cfg env.mypyVersion m (modFsView env m st) = .ok s ∧
      st'.records m.name = .record ⟨targetVersion cfg m, some s, some "blake2b"⟩ ∧
      ∀ n, n ≠ m.name → st'.records n = st.records n := by
  unfold recordBuildState at h
  cases hcs : hashCurrentState cfg env.mypyVersion m (modFsView env m st) with
  | error e => rw [hcs] at h; cases h
  | ok s =>
    rw [hcs] at h
    cases h
    refine ⟨s, rfl, ?_, ?_⟩
    · simp
    · intro n hn
      simp [hn]

/-- C3: a module's new build record is written only after generation and
layering have fully succeeded — on any failure (of the staleness check,
the stubgen invocations, any copy of the layering loop, or the final
fingerprinting) the error propagates and every persisted record is left
exactly as it was; and when the call returns normally with a changed
record for the module, generation had succeeded and the new record
carries the resolved version, the recomputed digest and `blake2b`. -/
theorem c3_record_write_discipline (cfg : Config) (env : Env) (m : Mod) (st : OrchState) :
    (∀ e st', updateIfRequired cfg env m st = .error (e, st') → st'.records = st.records) ∧
    (∀ st', updateIfRequired cfg env m st = .ok st' →
      st'.records m.name = st.records m.name ∨
      ((∃ d, env.stubgen (packageName m) = .ok d) ∧
        ∃ s, st'.records m.name = .record ⟨targetVersion cfg m, some s, some "blake2b"⟩)) := by
  constructor
  · intro e st' h
    unfold updateIfRequired at h
    cases hb : isBuiltVersion cfg env.mypyVersion m (modFsView env m st) (targetVersion cfg m) with
    | error e' =>
      rw [hb] at h
      dsimp only at h
      cases h
      rfl
    | ok b =>
      rw [hb] at h
      cases b
      · dsimp only at h
        cases hg : generateStubs env m st with
        | error e' =>
          rw [hg] at h
          dsimp only at h
          cases h
          rfl
        | ok st₁ =>
          rw [hg] at h
          dsimp only at h
          cases hl : layerList (overrideSources env m) st₁ with
          | error p =>
            rw [hl] at h
            dsimp only at h
            cases h
            rw [(layerList_records _ st₁).1 e st' hl, generateStubs_records env m st st₁ hg]
          | ok st₂ =>
            rw [hl] at h
            dsimp only at h
            cases hr : recordBuildState cfg env m st₂ with
            | error e' =>
              rw [hr] at h
              dsimp only at h
              cases h
              rw [(layerList_records _ st₁).2 st' hl, generateStubs_records env m st st₁ hg]
            | ok st₃ =>
              rw [hr] at h
              dsimp only at h
              cases h
      · dsimp only at h
        cases h
  · intro st' h
    unfold updateIfRequired at h
    cases hb : isBuiltVersion cfg env.mypyVersion m (modFsView env m st) (targetVersion cfg m) with
    | error e' =>
      rw [hb] at h
      dsimp only at h
      cases h
    | ok b =>
      rw [hb] at h
      cases b
      · dsimp only at h
        cases hg : generateStubs env m st with
        | error e' =>
          rw [hg] at h
          dsimp only at h
          cases h
        | ok st₁ =>
          rw [hg] at h
          dsimp only at h
          cases hl : layerList (overrideSources env m) st₁ with
          | error p =>
            rw [hl] at h
            dsimp only at h
            cases h
          | ok st₂ =>
            rw [hl] at h
            dsimp only at h
            cases hr : recordBuildState cfg env m st₂ with
            | error e' =>
              rw [hr] at h
              dsimp only at h
              cases h
            | ok st₃ =>
              rw [hr] at h
              dsimp only at h
              cases h
              rcases recordBuildState_ok cfg env m st₂ st' hr with ⟨s, _, hrec, _⟩
              have hgen : ∃ d, env.stubgen (packageName m) = .ok d := by
                unfold generateStubs at hg
                cases hgg : env.stubgen (packageName m) with
                | error e =>
                  rw [hgg] at hg
                  cases hg
                | ok tree => exact ⟨tree, rfl⟩
              exact Or.inr ⟨hgen, s, hrec⟩
      · dsimp only at h
        cases h
        exact Or.inl rfl

/-- The first configured module of the two-module failure scenario. -/
def mod4a : Mod := ⟨"m1", ⟨none, some "1.0", false⟩, pjoin (pjoin ".mystubs" ".local") "m1"⟩

/-- The second configured module of the two-module failure scenario. -/
def mod4b : Mod := ⟨"m2", ⟨none, some "1.0", false⟩, pjoin (pjoin ".mystubs" ".local") "m2"⟩

/-- A run over two modules where the first module's stubgen invocation
exits non-zero and the second would build cleanly. -/
def cfg4 : Config := ⟨".mystubs", false, [("m1", .str "1.0"), ("m2", .str "1.0")], []⟩

/-- The environment of that scenario: no override directories exist, no
filesystem faults, stubgen fails for `m1` only. -/
def env4 : Env :=
  { mypyVersion := "0.7"
  , projectOverride := fun _ => none
  , userOverrides := fun _ => [none, none]
  , stubgen := fun n => if n = "m1" then .error .calledProcessError else .ok (Dir.mk [] [])
  , copyFault := fun _ _ => none }

/-- The initial state of that scenario: no records, empty stubs dir. -/
def st4 : OrchState := ⟨fun _ => .absent, emptyStubs⟩

/-- C4 counterexample: with `m1` failing and `m2` buildable, the run
aborts at `m1` with the state untouched — `m2` is never processed and no
record is written for it — although `m2` on its own would have been
rebuilt and recorded. -/
theorem c4_counterexample :
    runAll cfg4 env4 st4 = .error (.calledProcessError, st4) ∧
    st4.records "m2" = .absent ∧
    (∃ st', runMods cfg4 env4 [mod4b] st4 = .ok st' ∧ st'.records "m2" ≠ .absent) := by
  refine ⟨rfl, rfl, ⟨_, rfl, ?_⟩⟩
  decide

/-- C4 (amended): the run loop has no per-module exception handling, so
the first failing module aborts the whole run: modules before it are
processed normally, and the failure of the one module propagates without
the modules after it ever being processed. -/
theorem c4_abort_on_failure (cfg : Config) (env : Env) (mods₁ : List Mod) (m : Mod)
    (mods₂ : List Mod) (st st₁ st' : OrchState) (e : PyErr)
    (h₁ : runMods cfg env mods₁ st = .ok st₁)
    (h₂ : updateIfRequired cfg env m st₁ = .error (e, st')) :
    runMods cfg env (mods₁ ++ m :: mods₂) st = .error (e, st') := by
  induction mods₁ generalizing st with
  | nil =>
    simp only [runMods, Except.ok.injEq] at h₁
    subst h₁
    rw [List.nil_append]
    simp only [runMods, h₂]
  | cons m₀ rest ih =>
    rw [List.cons_append]
    simp only [runMods] at h₁ ⊢
    cases hu : updateIfRequired cfg env m₀ st with
    | error e' =>
      rw [hu] at h₁
      dsimp only at h₁
      cases h₁
    | ok stx =>
      rw [hu] at h₁
      dsimp only at h₁ ⊢
      exact ih stx h₁

/-- C4 witness: the amended behaviour at the concrete two-module
scenario. -/
theorem c4_witness :
    runMods cfg4 env4 ([] ++ mod4a :: [mod4b]) st4 = .error (.calledProcessError, st4) :=
  c4_abort_on_failure cfg4 env4 [] mod4a [mod4b] st4 st4 st4 .calledProcessError rfl rfl

/-- C3 witness: the record-preservation half at the concrete failing
module. -/
theorem c3_witness :
    updateIfRequired cfg4 env4 mod4a st4 = .error (.calledProcessError, st4) ∧
    st4.records = st4.records :=
  ⟨rfl, (c3_record_write_discipline cfg4 env4 mod4a st4).1 .calledProcessError st4 rfl⟩

theorem lookupD_append {α : Type} (l₁ l₂ : List (String × α)) (n : String) :
    lookupD (l₁ ++ l₂) n =
      match lookupD l₁ n with
      | some v => some v
      | none => lookupD l₂ n := by
  induction l₁ with
  | nil => rfl
  | cons p rest ih =>
    rcases p with ⟨k, v⟩
    by_cases hk : k = n <;> simp [lookupD, hk, ih]

theorem lookupD_mergeSubs (ds ss : List (String × Dir)) (n : String) :
    lookupD (mergeSubs ds ss) n =
      match lookupD ss n with
      | some sd => some (match lookupD ds n with
                         | some dd => mergeDir dd sd
                         | none => sd)
      | none => none := by
  induction ss with
  | nil => rw [mergeSubs]; rfl
  | cons p rest ih =>
    rcases p with ⟨k, sd⟩
    rw [mergeSubs]
    by_cases hk : k = n <;> simp [lookupD, hk, ih]

/-- The destination does not block a file copy along the relative path
`p`: wherever the destination holds a plain file on `p`'s spine, it is
at the final component (where an incoming file simply overwrites it).
On a real filesystem a file at an interior spine position would make the
copy raise instead. -/
def destClear (dd : Dir) : List String → Prop
  | [] => True
  | n :: rest =>
    match entryAt dd n with
    | none => True
    | some (.file _) => rest = []
    | some (.dir dsub) => destClear dsub rest

/-- The same condition at the top level of the stubs directory. -/
def destClearTop (st : StubsMap) : List String → Prop
  | [] => True
  | n :: rest =>
    match st n with
    | none => True
    | some (.file _) => rest = []
    | some (.dir dd) => destClear dd rest

/-- The source tree does not touch the relative path `p`: along `p`'s
spine it holds no plain file, and wherever it stops holding entries the
path has left the tree. Copying such a source leaves the lookup at `p`
unchanged. -/
def srcClear (sd : Dir) : List String → Prop
  | [] => True
  | n :: rest =>
    match entryAt sd n with
    | none => True
    | some (.file _) => False
    | some (.dir ssub) => srcClear ssub rest

theorem srcClear_lookup_none : ∀ (p : List String) (d : Dir),
    srcClear d p → lookupNode (.dir d) p = none := by
  intro p
  induction p with
  | nil => intro d _; rfl
  | cons n rest ih =>
    intro d hc
    simp only [srcClear] at hc
    simp only [lookupNode]
    cases he : entryAt d n with
    | none => rfl
    | some node =>
      rw [he] at hc
      cases node with
      | file c => exact absurd hc (by simp)
      | dir dsub => exact ih dsub hc

theorem entryAt_mergeDir (dd sd : Dir) (n : String) :
    entryAt (mergeDir dd sd) n =
      match entryAt sd n, entryAt dd n with
      | some (.file c), _ => some (.file c)
      | some (.dir _), some (.file c) => some (.file c)
      | some (.dir ssub), some (.dir dsub) => some (.dir (mergeDir dsub ssub))
      | some (.dir ssub), none => some (.dir ssub)
      | none, e => e := by
  rcases dd with ⟨df, ds⟩
  rcases sd with ⟨sf, ss⟩
  rw [mergeDir]
  simp only [entryAt, Dir.files, Dir.subs, lookupD_append, lookupD_mergeSubs]
  cases lookupD sf n <;> cases lookupD df n <;> cases lookupD ss n <;> cases lookupD ds n <;> rfl

theorem mergeDir_src_wins : ∀ (p : List String) (dd sd : Dir) (c : Bytes),
    lookupNode (.dir sd) p = some c → destClear dd p →
    lookupNode (.dir (mergeDir dd sd)) p = some c := by
  intro p
  induction p with
  | nil =>
    intro dd sd c h _
    simp [lookupNode] at h
  | cons n rest ih =>
    intro dd sd c h hdc
    simp only [lookupNode] at h ⊢
    simp only [destClear] at hdc
    rw [entryAt_mergeDir]
    cases hse : entryAt sd n with
    | none =>
      rw [hse] at h
      simp at h
    | some node =>
      rw [hse] at h
      cases node with
      | file cf =>
        cases rest with
        | nil => exact h
        | cons m r2 => simp [lookupNode] at h
      | dir ssub =>
        cases hde : entryAt dd n with
        | none => exact h
        | some dnode =>
          rw [hde] at hdc
          cases dnode with
          | file cf =>
            subst hdc
            simp [lookupNode] at h
          | dir dsub => exact ih dsub ssub c h hdc

theorem mergeDir_untouched : ∀ (p : List String) (dd sd : Dir),
    srcClear sd p → lookupNode (.dir (mergeDir dd sd)) p = lookupNode (.dir dd) p := by
  intro p
  induction p with
  | nil => intro dd sd _; rfl
  | cons n rest ih =>
    intro dd sd hc
    simp only [srcClear] at hc
    simp only [lookupNode]
    rw [entryAt_mergeDir]
    cases hse : entryAt sd n with
    | none => rfl
    | some node =>
      rw [hse] at hc
      cases node with
      | file cf => exact absurd hc (by simp)
      | dir ssub =>
        cases hde : entryAt dd n with
        | none => exact srcClear_lookup_none rest ssub hc
        | some dnode =>
          cases dnode with
          | file cf => rfl
          | dir dsub => exact ih dsub ssub hc

theorem destClear_merge : ∀ (p : List String) (dd sd : Dir),
    destClear dd p → destClear sd p → destClear (mergeDir dd sd) p := by
  intro p
  induction p with
  | nil => intro dd sd _ _; trivial
  | cons n rest ih =>
    intro dd sd hd hs
    simp only [destClear] at hd hs ⊢
    rw [entryAt_mergeDir]
    cases hse : entryAt sd n with
    | none =>
      cases hde : entryAt dd n with
      | none => trivial
      | some dnode =>
        rw [hde] at hd
        cases dnode with
        | file cf => exact hd
        | dir dsub => exact hd
    | some node =>
      rw [hse] at hs
      cases node with
      | file cf => exact hs
      | dir ssub =>
        cases hde : entryAt dd n with
        | none => exact hs
        | some dnode =>
          rw [hde] at hd
          cases dnode with
          | file cf => exact hd
          | dir dsub => exact ih dsub ssub hd hs

theorem mergeTop_entry (st : StubsMap) (src : Dir) (n : String) :
    mergeTop st src n =
      match entryAt src n, st n with
      | some (.file c), _ => some (.file c)
      | some (.dir _), some (.file c) => some (.file c)
      | some (.dir ssub), some (.dir dd) => some (.dir (mergeDir dd ssub))
      | some (.dir ssub), none => some (.dir ssub)
      | none, e => e := by
  rcases src with ⟨sf, ss⟩
  simp only [mergeTop, entryAt, Dir.files, Dir.subs]
  cases lookupD sf n <;> cases lookupD ss n <;> cases st n <;> try rfl
  all_goals rename_i node; cases node <;> rfl

theorem mergeTop_src_wins (st : StubsMap) (src : Dir) (p : List String) (c : Bytes)
    (h : lookupNode (.dir src) p = some c) (hdc : destClearTop st p) :
    lookupStubs (mergeTop st src) p = some c := by
  cases p with
  | nil => simp [lookupNode] at h
  | cons n rest =>
    simp only [lookupNode] at h
    simp only [destClearTop] at hdc
    simp only [lookupStubs]
    rw [mergeTop_entry]
    cases hse : entryAt src n with
    | none =>
      rw [hse] at h
      simp at h
    | some node =>
      rw [hse] at h
      cases node with
      | file cf =>
        cases rest with
        | nil => exact h
        | cons m r2 => simp [lookupNode] at h
      | dir ssub =>
        cases hst : st n with
        | none => exact h
        | some dnode =>
          rw [hst] at hdc
          cases dnode with
          | file cf =>
            subst hdc
            simp [lookupNode] at h
          | dir dd => exact mergeDir_src_wins rest dd ssub c h hdc

theorem mergeTop_untouched (st : StubsMap) (src : Dir) (p : List String)
    (hc : srcClear src p) :
    lookupStubs (mergeTop st src) p = lookupStubs st p := by
  cases p with
  | nil => rfl
  | cons n rest =>
    simp only [srcClear] at hc
    simp only [lookupStubs]
    rw [mergeTop_entry]
    cases hse : entryAt src n with
    | none => rfl
    | some node =>
      rw [hse] at hc
      cases node with
      | file cf => exact absurd hc (by simp)
      | dir ssub =>
        cases hst : st n with
        | none => exact srcClear_lookup_none rest ssub hc
        | some dnode =>
          cases dnode with
          | file cf => rfl
          | dir dd => exact mergeDir_untouched rest dd ssub hc

theorem destClearTop_merge (st : StubsMap) (src : Dir) (p : List String)
    (hd : destClearTop st p) (hs : destClear src p) :
    destClearTop (mergeTop st src) p := by
  cases p with
  | nil => trivial
  | cons n rest =>
    simp only [destClearTop] at hd ⊢
    simp only [destClear] at hs
    rw [mergeTop_entry]
    cases hse : entryAt src n with
    | none =>
      cases hst : st n with
      | none => trivial
      | some dnode =>
        rw [hst] at hd
        cases dnode with
        | file cf => exact hd
        | dir dd => exact hd
    | some node =>
      rw [hse] at hs
      cases node with
      | file cf => exact hs
      | dir ssub =>
        cases hst : st n with
        | none => exact hs
        | some dnode =>
          rw [hst] at hd
          cases dnode with
          | file cf => exact hd
          | dir dd => exact destClear_merge rest dd ssub hd hs

/-- The cumulative effect on the stubs directory of the sequence of
`copy_stubs_into_place` calls a build performs, in call order (primary
first, then overrides in increasing priority): non-existent sources are
skipped, existing ones merged over the destination. -/
def layerPure (st : StubsMap) : List (Option Dir) → StubsMap
  | [] => st
  | none :: rest => layerPure st rest
  | some d :: rest => layerPure (mergeTop st d) rest

theorem layerPure_untouched : ∀ (srcs : List (Option Dir)) (st : StubsMap) (p : List String),
    (∀ od ∈ srcs, ∀ d, od = some d → srcClear d p) →
    lookupStubs (layerPure st srcs) p = lookupStubs st p := by
  intro srcs
  induction srcs with
  | nil => intro st p _; rfl
  | cons od rest ih =>
    intro st p h
    cases od with
    | none => exact ih st p (fun o hm d hd => h o (List.mem_cons_of_mem _ hm) d hd)
    | some d =>
      rw [show layerPure st (some d :: rest) = layerPure (mergeTop st d) rest from rfl]
      rw [ih (mergeTop st d) p (fun o hm d' hd => h o (List.mem_cons_of_mem _ hm) d' hd)]
      exact mergeTop_untouched st d p (h (some d) (List.mem_cons_self _ _) d rfl)

theorem layerPure_precedence : ∀ (pre : List (Option Dir)) (d : Dir) (post : List (Option Dir))
    (st : StubsMap) (p : List String) (c : Bytes),
    lookupNode (.dir d) p = some c →
    destClearTop st p →
    (∀ od ∈ pre, ∀ d', od = some d' → destClear d' p) →
    (∀ od ∈ post, ∀ d', od = some d' → srcClear d' p) →
    lookupStubs (layerPure st (pre ++ some d :: post)) p = some c := by
  intro pre
  induction pre with
  | nil =>
    intro d post st p c h hdc _ hpost
    rw [List.nil_append]
    rw [show layerPure st (some d :: post) = layerPure (mergeTop st d) post from rfl]
    rw [layerPure_untouched post (mergeTop st d) p hpost]
    exact mergeTop_src_wins st d p c h hdc
  | cons od rest ih =>
    intro d post st p c h hdc hpre hpost
    rw [List.cons_append]
    cases od with
    | none =>
      exact ih d post st p c h hdc
        (fun o hm d' hd => hpre o (List.mem_cons_of_mem _ hm) d' hd) hpost
    | some d0 =>
      rw [show layerPure st (some d0 :: (rest ++ some d :: post)) =
        layerPure (mergeTop st d0) (rest ++ some d :: post) from rfl]
      exact ih d post (mergeTop st d0) p c h
        (destClearTop_merge st d0 p hdc (hpre (some d0) (List.mem_cons_self _ _) d0 rfl))
        (fun o hm d' hd => hpre o (List.mem_cons_of_mem _ hm) d' hd) hpost

theorem layerList_no_fault : ∀ (l : List (Option PyErr × Option Dir)) (st : OrchState),
    (∀ x ∈ l, x.1 = none) →
    layerList l st = .ok { st with stubs := layerPure st.stubs (l.map Prod.snd) } := by
  intro l
  induction l with
  | nil => intro st _; rfl
  | cons x rest ih =>
    intro st h
    rcases x with ⟨fault, src⟩
    have hf : fault = none := h (fault, src) (List.mem_cons_self _ _)
    subst hf
    cases src with
    | none =>
      rw [show layerList ((none, (none : Option Dir)) :: rest) st = layerList rest st from rfl]
      rw [ih st (fun x hm => h x (List.mem_cons_of_mem _ hm))]
      rfl
    | some d =>
      rw [show layerList ((none, some d) :: rest) st =
        layerList rest { st with stubs := mergeTop st.stubs d } from rfl]
      rw [ih _ (fun x hm => h x (List.mem_cons_of_mem _ hm))]
      rfl

theorem overrideSources_snd (env : Env) (m : Mod) :
    (overrideSources env m).map Prod.snd =
      env.userOverrides m.name ++ [env.projectOverride m.name] := by
  unfold overrideSources
  rw [List.map_append, List.map_map]
  congr 1
  exact List.enum_map_snd _

theorem recordBuildState_stubs (cfg : Config) (env : Env) (m : Mod) (st st' : OrchState)
    (h : recordBuildState cfg env m st = .ok st') : st'.stubs = st.stubs := by
  unfold recordBuildState at h
  cases hcs : hashCurrentState cfg env.mypyVersion m (modFsView env m st) with
  | error e => rw [hcs] at h; cases h
  | ok s => rw [hcs] at h; cases h; rfl

/-- C6: layering materialises the primary generated tree first and then
each override source in increasing priority order. Concretely: (1) a
`None` or non-existent source directory is skipped without error; (2) on
the stale path with generation succeeding and no filesystem faults, the
resulting stubs directory is exactly the primary tree merged first and
the override directories merged after it, user-scope then project-local;
(3) for any relative path carried as a file by a source, with the later
sources not touching that path and no file/directory collisions along
it, the destination holds that source's bytes — the highest-priority
source containing the path wins; (4) in particular, with primary
`a.pyi = X` and overrides `Y` (lower priority) then `Z` (higher
priority), the materialised `a.pyi` holds `Z`. -/
theorem c6_override_precedence :
    (∀ (fault : Option PyErr) (st : StubsMap), copyStubsIntoPlace fault none st = .ok st) ∧
    (∀ (cfg : Config) (env : Env) (m : Mod) (st st' : OrchState) (gen : Dir),
      env.stubgen (packageName m) = .ok gen →
      (∀ ph, env.copyFault m.name ph = none) →
      isBuiltVersion cfg env.mypyVersion m (modFsView env m st) (targetVersion cfg m) =
        .ok false →
      updateIfRequired cfg env m st = .ok st' →
      st'.stubs = layerPure (mergeTop st.stubs gen)
        (env.userOverrides m.name ++ [env.projectOverride m.name])) ∧
    (∀ (pre : List (Option Dir)) (d : Dir) (post : List (Option Dir)) (st : StubsMap)
        (p : List String) (c : Bytes),
      lookupNode (.dir d) p = some c →
      destClearTop st p →
      (∀ od ∈ pre, ∀ d', od = some d' → destClear d' p) →
      (∀ od ∈ post, ∀ d', od = some d' → srcClear d' p) →
      lookupStubs (layerPure st (pre ++ some d :: post)) p = some c) ∧
    (lookupStubs (layerPure (mergeTop emptyStubs (Dir.mk [("a.pyi", [88])] []))
        [some (Dir.mk [("a.pyi", [89])] []), some (Dir.mk [("a.pyi", [90])] [])])
      ["a.pyi"] = some [90]) := by
  refine ⟨fun fault st => rfl, ?_, layerPure_precedence, rfl⟩
  intro cfg env m st st' gen hg hnf hb hu
  have hfaults : ∀ x ∈ overrideSources env m, x.1 = none := by
    intro x hx
    unfold overrideSources at hx
    rcases List.mem_append.mp hx with hx | hx
    · rcases List.mem_map.mp hx with ⟨q, _, rfl⟩
      exact hnf _
    · rw [List.mem_singleton] at hx
      subst hx
      exact hnf _
  unfold updateIfRequired at hu
  rw [hb] at hu
  dsimp only at hu
  have hgs : generateStubs env m st = .ok { st with stubs := mergeTop st.stubs gen } := by
    unfold generateStubs
    rw [hg, hnf .primary]
    rfl
  rw [hgs] at hu
  dsimp only at hu
  rw [layerList_no_fault (overrideSources env m) _ hfaults] at hu
  dsimp only at hu
  split at hu
  · cases hu
  · cases hu
    rename_i st₃ hr
    have hst := recordBuildState_stubs cfg env m _ _ hr
    rw [hst, ← overrideSources_snd env m]

/-- C6 witness: the precedence component at the concrete X/Y/Z example —
the primary tree is already merged, `Y` is the earlier override, `Z` the
later (highest-priority) one, and the materialised `a.pyi` holds `Z`'s
bytes. -/
theorem c6_witness :
    lookupStubs (layerPure (mergeTop emptyStubs (Dir.mk [("a.pyi", [88])] []))
      ([some (Dir.mk [("a.pyi", [89])] [])] ++
        some (Dir.mk [("a.pyi", [90])] []) :: [])) ["a.pyi"] = some [90] :=
  c6_override_precedence.2.2.1 [some (Dir.mk [("a.pyi", [89])] [])]
    (Dir.mk [("a.pyi", [90])] []) []
    (mergeTop emptyStubs (Dir.mk [("a.pyi", [88])] [])) ["a.pyi"] [90]
    rfl rfl
    (by
      intro od hm d' hd
      rw [List.mem_singleton] at hm
      subst hm
      cases hd
      rfl)
    (fun od hm _ _ => absurd hm (List.not_mem_nil od))

theorem lookupD_eq_none {α : Type} {l : List (String × α)} {n : String} :
    lookupD l n = none ↔ n ∉ l.map Prod.fst := by
  induction l with
  | nil => simp [lookupD]
  | cons p rest ih =>
    rcases p with ⟨k, v⟩
    by_cases hk : k = n
    · subst hk
      simp [lookupD]
    · simp [lookupD, hk, ih, Ne.symm hk]

theorem countP_explicitMods (localDir : String) (n : String) :
    ∀ (mods : List (String × ModDetails)), (mods.map Prod.fst).Nodup →
    (explicitMods localDir mods).countP (fun m => m.name == n) =
      (match lookupD mods n with
       | some d => if (normalizeDetails d).1 then 0 else 1
       | none => 0) := by
  intro mods
  induction mods with
  | nil => intro _; rfl
  | cons p rest ih =>
    intro hnd
    rcases p with ⟨k, d⟩
    rw [List.map_cons, List.nodup_cons] at hnd
    have hk : k ∉ rest.map Prod.fst := hnd.1
    have hnd' := hnd.2
    unfold explicitMods
    rw [List.filterMap_cons]
    dsimp only
    by_cases hkn : k = n
    · subst hkn
      rw [show lookupD ((k, d) :: rest) k = some d from by simp [lookupD]]
      have h0 : lookupD rest k = none := lookupD_eq_none.mpr hk
      cases hsk : (normalizeDetails d).1 with
      | true =>
        rw [if_pos rfl]
        have := ih hnd'
        unfold explicitMods at this
        rw [this, h0]
        simp [hsk]
      | false =>
        rw [if_neg (by simp)]
        rw [List.countP_cons]
        have := ih hnd'
        unfold explicitMods at this
        rw [this, h0]
        simp [hsk]
    · rw [show lookupD ((k, d) :: rest) n = lookupD rest n from by simp [lookupD, hkn]]
      cases hsk : (normalizeDetails d).1 with
      | true =>
        rw [if_pos rfl]
        have := ih hnd'
        unfold explicitMods at this
        rw [this]
      | false =>
        rw [if_neg (by simp)]
        rw [List.countP_cons]
        have := ih hnd'
        unfold explicitMods at this
        rw [this]
        simp [hkn]

theorem countP_autoMods (localDir : String) (n : String) (configured : List String) :
    ∀ (avs : List (String × String)), (avs.map Prod.fst).Nodup →
    (autoMods localDir configured avs).countP (fun m => m.name == n) =
      if n ∉ configured ∧ (lookupD avs n).isSome then 1 else 0 := by
  intro avs
  induction avs with
  | nil => intro _; simp [autoMods, lookupD]
  | cons p rest ih =>
    intro hnd
    rcases p with ⟨k, v⟩
    rw [List.map_cons, List.nodup_cons] at hnd
    have hk : k ∉ rest.map Prod.fst := hnd.1
    have hnd' := hnd.2
    unfold autoMods
    rw [List.filterMap_cons]
    dsimp only
    by_cases hkn : k = n
    · subst hkn
      rw [show lookupD ((k, v) :: rest) k = some v from by simp [lookupD]]
      have h0 : lookupD rest k = none := lookupD_eq_none.mpr hk
      by_cases hc : k ∈ configured
      · rw [if_pos hc]
        have := ih hnd'
        unfold autoMods at this
        rw [this, h0]
        simp [hc]
      · rw [if_neg hc]
        rw [List.countP_cons]
        have := ih hnd'
        unfold autoMods at this
        rw [this, h0]
        simp [hc]
    · rw [show lookupD ((k, v) :: rest) n = lookupD rest n from by simp [lookupD, hkn]]
      by_cases hc : k ∈ configured
      · rw [if_pos hc]
        have := ih hnd'
        unfold autoMods at this
        rw [this]
      · rw [if_neg hc]
        rw [List.countP_cons]
        have := ih hnd'
        unfold autoMods at this
        rw [this]
        simp [hkn]

/-- The configuration of the C9 counterexample: a single explicitly
configured module whose `skip` flag is set, auto-discovery off. -/
def cfg9 : Config := ⟨".mystubs", false, [("foo", .table none (some "1.0") true)], []⟩

/-- C9 counterexample: resolution yields no `ModuleSpec` at all for a
configuration with one (skipped) explicit entry, although the claim says
skipped entries are yielded so the orchestrator can filter them. -/
theorem c9_counterexample :
    gatherModules cfg9 = [] ∧ cfg9.modules.length = 1 :=
  ⟨rfl, rfl⟩

/-- C9 (amended): resolution yields a `ModuleSpec` only for explicitly
configured entries whose `skip` flag is not set — skipped entries are
filtered during resolution itself, not by the orchestrator; with
auto-discovery enabled it additionally yields exactly one `ModuleSpec`
for every name of the external version source that is not explicitly
configured (skipped names count as configured and are not rediscovered).
Stated as the exact multiplicity of each name among the yielded
modules. -/
theorem c9_resolution_count (cfg : Config) (n : String)
    (h₁ : (cfg.modules.map Prod.fst).Nodup)
    (h₂ : (cfg.autoVersions.map Prod.fst).Nodup) :
    (gatherModules cfg).countP (fun m => m.name == n) =
      (match lookupD cfg.modules n with
       | some d => if (normalizeDetails d).1 then 0 else 1
       | none =>
         if cfg.discover_modules ∧ (lookupD cfg.autoVersions n).isSome then 1 else 0) := by
  unfold gatherModules
  rw [List.countP_append]
  rw [countP_explicitMods _ n cfg.modules h₁]
  cases hd : cfg.discover_modules with
  | false =>
    rw [if_neg (by simp)]
    cases hl : lookupD cfg.modules n with
    | some d => simp
    | none => simp
  | true =>
    rw [if_pos rfl]
    rw [countP_autoMods _ n (cfg.modules.map Prod.fst) cfg.autoVersions h₂]
    cases hl : lookupD cfg.modules n with
    | some d =>
      have hmem : n ∈ cfg.modules.map Prod.fst := by
        by_contra hmem
        rw [lookupD_eq_none.mpr hmem] at hl
        cases hl
      rw [if_neg (by simp [hmem])]
      simp
    | none =>
      have hmem : n ∉ cfg.modules.map Prod.fst := lookupD_eq_none.mp hl
      dsimp only
      by_cases hs : (lookupD cfg.autoVersions n).isSome
      · rw [if_pos ⟨hmem, hs⟩, if_pos ⟨rfl, hs⟩]
      · rw [if_neg (by simp [hs]), if_neg (by simp [hs])]

/-- C9 witness: the amended count at a concrete configuration — `foo`
explicitly configured, `bar` present only in the version source,
auto-discovery on: exactly one resolved module named `bar`. -/
theorem c9_witness :
    (gatherModules ⟨".mystubs", true, [("foo", .str "1.0")],
        [("foo", "2.0"), ("bar", "3.0")]⟩).countP (fun m => m.name == "bar") = 1 :=
  (c9_resolution_count ⟨".mystubs", true, [("foo", .str "1.0")],
      [("foo", "2.0"), ("bar", "3.0")]⟩ "bar" (by decide) (by decide)).trans (by decide)

end Mystubs
